import Mathlib

/-!
Shallow embedding of the `simple-http-server` repository
(`httpserver/HTTPConnectionHandler.py` and `httpserver/HTTPServer.py`).

The Python code decodes every socket read to `str` and works on text
throughout ("We will do everything in str"), so connection buffers,
frames, paths and header fields are modelled as lists of characters.
-/

set_option maxRecDepth 4000

abbrev Str := List Char

/-- `HTTPConnectionHandler.CRLF`. -/
def CRLF : Str := ['\r', '\n']

/-- `HTTPConnectionHandler.END_OF_REQUEST` (`'\r\n\r\n'`). -/
def END_OF_REQUEST : Str := ['\r', '\n', '\r', '\n']

/-- Model of Python `s.split(sep)` for a one-character separator `sep`
(used for `headline.split(' ')` and `path.split('/')`).  Python keeps
empty pieces, so the result is never the empty list. -/
def splitOnChar (sep : Char) : Str → List Str
  | [] => [[]]
  | c :: cs =>
    if c = sep then [] :: splitOnChar sep cs
    else
      match splitOnChar sep cs with
      | [] => [[c]]
      | g :: gs => (c :: g) :: gs

/-- Model of Python `s.split(sep)` for a two-character separator `[a, b]`
(used for `request_string.split('\r\n')` and `line.split(': ')`).
Scans left to right for the leftmost non-overlapping occurrences, as
Python does. -/
def splitOnTwo (a b : Char) : Str → List Str
  | [] => [[]]
  | [c] => [[c]]
  | c :: c' :: cs =>
    if c = a ∧ c' = b then [] :: splitOnTwo a b cs
    else
      match splitOnTwo a b (c' :: cs) with
      | [] => [[c]]
      | g :: gs => (c :: g) :: gs

/-- `request_string.split(HTTPConnectionHandler.CRLF)`. -/
def splitCRLF : Str → List Str := splitOnTwo '\r' '\n'

/-- `line.split(': ')` from `HTTPConnectionHandler.__parse_request`. -/
def splitColonSpace : Str → List Str := splitOnTwo ':' ' '

/-- Index of the first occurrence of `END_OF_REQUEST` in the buffer:
Python's `self.unprocessed_data.index(self.END_OF_REQUEST)`, guarded by
`END_OF_REQUEST in self.unprocessed_data` (`none` when absent). -/
def findTerm : Str → Option Nat
  | [] => none
  | c :: cs =>
    if END_OF_REQUEST.isPrefixOf (c :: cs) then some 0
    else (findTerm cs).map (· + 1)

/-- One frame-extraction step of `__detect_request_from_socket`: when the
terminator occurs in the buffer, cut off everything before it as the
request string and delete the request and the terminator from the
buffer. -/
def extractFrame (buf : Str) : Option (Str × Str) :=
  match findTerm buf with
  | some i => some (buf.take i, buf.drop (i + END_OF_REQUEST.length))
  | none => none

/-- `HTTPRequest` from `HTTPConnectionHandler.py`. -/
structure HTTPRequest where
  command : Str
  path : Str
  headers : List (Str × Str)
deriving DecidableEq

/-- `HTTPRequest.is_connection_keep_alive`:
`'Connection' in self.headers and self.headers['Connection'] == 'keep-alive'`. -/
def HTTPRequest.is_connection_keep_alive (r : HTTPRequest) : Bool :=
  match List.lookup "Connection".toList r.headers with
  | some v => v == "keep-alive".toList
  | none => false

/-- Python dict assignment `headers[key] = value`: overwrite in place when
the key is present, append otherwise. -/
def dictInsert (d : List (Str × Str)) (k v : Str) : List (Str × Str) :=
  if d.any (fun p => p.1 == k) then d.map (fun p => if p.1 == k then (k, v) else p)
  else d ++ [(k, v)]

/-- The header loop of `__parse_request`: each line must split on `': '`
into exactly one key/value pair, which is stored by dict assignment. -/
def parseHeaders : List Str → List (Str × Str) → Except Str (List (Str × Str))
  | [], headers => .ok headers
  | line :: rest, headers =>
    match splitColonSpace line with
    | [key, value] => parseHeaders rest (dictInsert headers key value)
    | _ => .error ("Malformed key-value header: ".toList ++ line)

/-- `HTTPConnectionHandler.__parse_request`.  `required_keys = {'Host'}`,
so the final subset test `len(headers.keys() & required_keys) <
len(required_keys)` is exactly a membership test for the key `Host`. -/
def parse_request (request_string : Str) : Except Str HTTPRequest :=
  match splitCRLF request_string with
  | [] => .error [] -- unreachable: Python str.split never returns an empty list
  | headline :: rest =>
    match splitOnChar ' ' headline with
    | [command, resource_path, http_version] =>
      if command ≠ "GET".toList then
        .error ("Only GET is supported: ".toList ++ command)
      else if http_version ≠ "HTTP/1.1".toList then
        .error ("Only HTTP/1 is supported: ".toList ++ http_version)
      else
        match parseHeaders rest [] with
        | .error e => .error e
        | .ok headers =>
          if headers.any (fun p => p.1 == "Host".toList) then
            .ok ⟨command, resource_path, headers⟩
          else
            .error ("Required headers: Host".toList)
    | _ => .error ("Headline must have 3 parts: ".toList ++ headline)

deriving instance DecidableEq for Except

/-- A value stored in a Python response-header dict.  `__serve_file` stores
the mime-type guess (a string or `None`) and the integer file size; the
f-string in `formatted_string` serializes them with `str(...)`. -/
inductive PyVal where
  | vStr (s : Str)
  | vInt (n : Nat)
  | vNone
deriving DecidableEq

/-- Python `str(value)` as used by the f-string `f'{key}: {value}'`. -/
def pyStr : PyVal → Str
  | .vStr s => s
  | .vInt n => Nat.toDigits 10 n
  | .vNone => "None".toList

/-- `HTTPResponse.CODE_DESCRIPTION` (a dict lookup; other codes would raise
`KeyError` in Python and are never constructed by the server). -/
def CODE_DESCRIPTION (code : Nat) : Str :=
  if code = 200 then "OK".toList
  else if code = 400 then "Bad Request".toList
  else if code = 404 then "Not Found".toList
  else []

/-- The `response_lines` list built by `HTTPResponse.formatted_string`:
status line, fixed `Server` header, then one `key: value` line per header. -/
def response_lines (code : Nat) (headers : List (Str × PyVal)) : List Str :=
  ("HTTP/1.1 ".toList ++ Nat.toDigits 10 code ++ [' '] ++ CODE_DESCRIPTION code)
    :: "Server: Too-simple-http-server".toList
    :: headers.map (fun kv => kv.1 ++ ": ".toList ++ pyStr kv.2)

/-- `HTTPResponse.formatted_string`: `CRLF.join(response_lines) + CRLF * 2`. -/
def formatted_string (code : Nat) (headers : List (Str × PyVal)) : Str :=
  List.intercalate CRLF (response_lines code headers) ++ CRLF ++ CRLF

/-- The headers of `HTTPResponse.client_error_400` and
`HTTPResponse.not_found_404`: `{'Connection': 'close'}`. -/
def connection_close_headers : List (Str × PyVal) :=
  [("Connection".toList, PyVal.vStr "close".toList)]

/-- `posixpath.join(a, b)` (two-argument `os.path.join`). -/
def os_path_join (a b : Str) : Str :=
  if b.take 1 = ['/'] then b
  else if a = [] ∨ a.getLast? = some '/' then a ++ b
  else a ++ '/' :: b

/-- The component loop of `posixpath.normpath`.  Python appends to and pops
from the tail of `new_comps`; the accumulator here is kept reversed, so
`new_comps[-1]` is the head and the result is reversed at the end. -/
def normLoop (initial_slashes : Nat) : List Str → List Str → List Str
  | newComps, [] => newComps.reverse
  | newComps, comp :: rest =>
    if comp = [] ∨ comp = ['.'] then normLoop initial_slashes newComps rest
    else if comp ≠ "..".toList ∨ (initial_slashes = 0 ∧ newComps = []) ∨
        newComps.head? = some "..".toList then
      normLoop initial_slashes (comp :: newComps) rest
    else
      match newComps with
      | _ :: tail => normLoop initial_slashes tail rest
      | [] => normLoop initial_slashes newComps rest

/-- `posixpath.normpath`. -/
def normpath (path : Str) : Str :=
  if path = [] then ['.']
  else
    let initial_slashes : Nat :=
      if path.take 1 = ['/'] then
        if path.take 2 = ['/', '/'] ∧ path.take 3 ≠ ['/', '/', '/'] then 2 else 1
      else 0
    let comps := splitOnChar '/' path
    let newComps := normLoop initial_slashes [] comps
    let joined := List.replicate initial_slashes '/' ++ List.intercalate ['/'] newComps
    if joined = [] then ['.'] else joined

/-- `posixpath.abspath`: join a non-absolute path onto the current working
directory, then normalize. -/
def abspath (cwd path : Str) : Str :=
  if path.take 1 = ['/'] then normpath path else normpath (os_path_join cwd path)

/-- The environment a running `HTTPServer` dispatches against: the
current working directory, `serve_docroot`, the three optional
`serve_config` entries, and the filesystem / collaborator functions the
dispatch consults (`os.path.exists`, `os.path.getsize`,
`mimetypes.guess_type`, the formatted `Last-Modified` string, and the
byte count reported by `connection.sendfile`). -/
structure ServeEnv where
  cwd : Str
  serve_docroot : Str
  cfg_index : Option Str
  cfg_400 : Option Str
  cfg_404 : Option Str
  path_exists : Str → Bool
  getsize : Str → Nat
  guess_type : Str → Option Str
  last_modified : Str → Str
  sendfile_bytes : Str → Nat

/-- `HTTPServer.get_index_html_path`:
`os.path.join('/', serve_config.get('index', 'index.html'))`. -/
def get_index_html_path (env : ServeEnv) : Str :=
  os_path_join ['/'] (env.cfg_index.getD "index.html".toList)

/-- `HTTPServer.get_abspath_relative_to_docroot`. -/
def get_abspath_relative_to_docroot (env : ServeEnv) (path : Str) : Str :=
  abspath env.cwd (os_path_join env.serve_docroot path)

/-- Everything `handle_tcp_connection` does to the connection: sending a
formatted response head, streaming a file's bytes (`send_file`), and
closing the socket. -/
inductive Out where
  | resp (code : Nat) (headers : List (Str × PyVal))
  | fileOut (path : Str) (nbytes : Nat)
  | closeConn
deriving DecidableEq

/-- Exceptions that escape `handle_tcp_connection` uncaught and abort the
session thread: `AttributeError` (from the `send_body` calls — no such
method exists on `HTTPConnectionHandler`, which only defines `send_file`)
and `AssertionError` (from `assert n_bytes_sent == file_size`). -/
inductive SErr where
  | attrError
  | assertError
deriving DecidableEq

/-- The requested path after index substitution and stripping one leading
slash, resolved against the docroot (`abs_requested_path` in
`__serve_file`). -/
def resolved_request_path (env : ServeEnv) (request : HTTPRequest) : Str :=
  let requested_path := if request.path = ['/'] then get_index_html_path env else request.path
  let requested_path :=
    if requested_path.take 1 = ['/'] then requested_path.drop 1 else requested_path
  get_abspath_relative_to_docroot env requested_path

/-- `abs_docroot_path` in `__serve_file`: `os.path.abspath(serve_docroot)`. -/
def abs_docroot_path (env : ServeEnv) : Str :=
  abspath env.cwd env.serve_docroot

/-- `HTTPServer.__serve_file`: the outputs sent on the connection, paired
with the uncaught exception (if any) that aborts the session.  A
configured `'400'`/`'404'` page makes the code call
`http_connection.send_body(...)`, a method `HTTPConnectionHandler` does
not define, so the response head is sent and then `AttributeError` is
raised before any page bytes are streamed. -/
def serve_file (env : ServeEnv) (request : HTTPRequest) : List Out × Option SErr :=
  let abs_requested_path := resolved_request_path env request
  if ¬ (abs_docroot_path env).isPrefixOf abs_requested_path then
    match env.cfg_400 with
    | some _ => ([.resp 400 connection_close_headers], some .attrError)
    | none => ([.resp 400 connection_close_headers], none)
  else if ¬ env.path_exists abs_requested_path then
    match env.cfg_404 with
    | some _ => ([.resp 404 connection_close_headers], some .attrError)
    | none => ([.resp 404 connection_close_headers], none)
  else
    let mimetype := env.guess_type abs_requested_path
    let file_size := env.getsize abs_requested_path
    let last_modified_time := env.last_modified abs_requested_path
    let response_headers : List (Str × PyVal) :=
      [("Content-Type".toList, match mimetype with | some s => .vStr s | none => .vNone),
       ("Content-Length".toList, .vInt file_size),
       ("Last-Modified".toList, .vStr last_modified_time)]
    let n_bytes_sent := env.sendfile_bytes abs_requested_path
    ([.resp 200 response_headers, .fileOut abs_requested_path n_bytes_sent],
     if n_bytes_sent = file_size then none else some .assertError)

theorem findTerm_isPre {buf : Str} {i : Nat} (h : findTerm buf = some i) :
    END_OF_REQUEST.isPrefixOf (buf.drop i) = true := by
  induction buf generalizing i with
  | nil => simp [findTerm] at h
  | cons c cs ih =>
    rw [findTerm] at h
    split at h
    · next hp => cases h; simpa using hp
    · next hp =>
      cases hi : findTerm cs with
      | none => rw [hi] at h; simp at h
      | some i0 =>
        rw [hi] at h
        simp only [Option.map_some'] at h
        cases h
        simpa using ih hi

theorem findTerm_min {buf : Str} {i : Nat} (h : findTerm buf = some i) :
    ∀ j, END_OF_REQUEST.isPrefixOf (buf.drop j) = true → i ≤ j := by
  induction buf generalizing i with
  | nil => simp [findTerm] at h
  | cons c cs ih =>
    rw [findTerm] at h
    split at h
    · next hp => cases h; intro j _; exact Nat.zero_le j
    · next hp =>
      cases hi : findTerm cs with
      | none => rw [hi] at h; simp at h
      | some i0 =>
        rw [hi] at h
        simp only [Option.map_some'] at h
        cases h
        intro j hj
        cases j with
        | zero => rw [List.drop_zero] at hj; exact absurd hj hp
        | succ j0 => exact Nat.succ_le_succ (ih hi j0 hj)

theorem findTerm_le {buf : Str} {i : Nat} (h : findTerm buf = some i) :
    i + END_OF_REQUEST.length ≤ buf.length := by
  have hp := findTerm_isPre h
  have hl := (List.isPrefixOf_iff_prefix.mp hp).length_le
  rw [List.length_drop] at hl
  have : END_OF_REQUEST.length = 4 := by decide
  omega

theorem findTerm_append {buf s : Str} {i : Nat} (h : findTerm buf = some i) :
    findTerm (buf ++ s) = some i := by
  induction buf generalizing i with
  | nil => simp [findTerm] at h
  | cons c cs ih =>
    rw [findTerm] at h
    split at h
    · next hp =>
      cases h
      rw [List.cons_append, findTerm]
      have : END_OF_REQUEST.isPrefixOf (c :: (cs ++ s)) = true := by
        rw [List.isPrefixOf_iff_prefix] at hp ⊢
        exact hp.trans (by rw [← List.cons_append]; exact List.prefix_append _ _)
      simp [this]
    · next hp =>
      cases hi : findTerm cs with
      | none => rw [hi] at h; simp at h
      | some i0 =>
        rw [hi] at h
        simp only [Option.map_some'] at h
        cases h
        rw [List.cons_append, findTerm]
        have hle := findTerm_le hi
        have hnp : ¬ END_OF_REQUEST.isPrefixOf (c :: (cs ++ s)) = true := by
          intro hcon
          apply hp
          rw [List.isPrefixOf_iff_prefix] at hcon ⊢
          have hlen : END_OF_REQUEST.length ≤ (c :: cs).length := by
            simp only [List.length_cons]
            have h4 : END_OF_REQUEST.length = 4 := by decide
            omega
          obtain ⟨t, ht⟩ := hcon
          have ht' : END_OF_REQUEST ++ t = (c :: cs) ++ s := by simpa using ht
          have h2 : List.take END_OF_REQUEST.length ((c :: cs) ++ s) =
              List.take END_OF_REQUEST.length (c :: cs) := List.take_append_of_le_length hlen
          rw [← ht', List.take_left] at h2
          exact ⟨(c :: cs).drop END_OF_REQUEST.length, by
            conv_rhs => rw [← List.take_append_drop END_OF_REQUEST.length (c :: cs)]
            rw [← h2]⟩
        rw [if_neg hnp, ih hi]
        rfl

theorem extractFrame_decomp {buf f r : Str} (h : extractFrame buf = some (f, r)) :
    buf = f ++ END_OF_REQUEST ++ r ∧
      ∀ j, END_OF_REQUEST.isPrefixOf (buf.drop j) = true → f.length ≤ j := by
  rw [extractFrame] at h
  cases hi : findTerm buf with
  | none => rw [hi] at h; exact absurd h (by simp)
  | some i =>
    rw [hi] at h
    simp only [Option.some.injEq, Prod.mk.injEq] at h
    obtain ⟨hf, hr⟩ := h
    have hle := findTerm_le hi
    have hp := findTerm_isPre hi
    rw [List.isPrefixOf_iff_prefix] at hp
    obtain ⟨t, ht⟩ := hp
    have hflen : f.length = i := by rw [← hf, List.length_take]; omega
    constructor
    · have hteq : t = buf.drop (i + END_OF_REQUEST.length) := by
        have h5 := congrArg (List.drop END_OF_REQUEST.length) ht
        rw [List.drop_drop, List.drop_left] at h5
        exact h5
      rw [← hf, ← hr, ← hteq, List.append_assoc, ht, List.take_append_drop]
    · intro j hj
      rw [hflen]
      exact findTerm_min hi j hj

theorem extractFrame_some_len {buf f r : Str} (h : extractFrame buf = some (f, r)) :
    r.length < buf.length := by
  have hd := (extractFrame_decomp h).1
  have hlen := congrArg List.length hd
  rw [List.length_append, List.length_append] at hlen
  have h4 : END_OF_REQUEST.length = 4 := by decide
  omega

theorem extractFrame_append {buf s f r : Str} (h : extractFrame buf = some (f, r)) :
    extractFrame (buf ++ s) = some (f, r ++ s) := by
  rw [extractFrame] at h
  cases hi : findTerm buf with
  | none => rw [hi] at h; exact absurd h (by simp)
  | some i =>
    rw [hi] at h
    simp only [Option.some.injEq, Prod.mk.injEq] at h
    obtain ⟨hf, hr⟩ := h
    have hle := findTerm_le hi
    rw [extractFrame, findTerm_append hi]
    simp only [Option.some.injEq, Prod.mk.injEq]
    constructor
    · rw [← hf]
      exact List.take_append_of_le_length (by omega)
    · rw [← hr]
      exact List.drop_append_of_le_length (by omega)

/-- What one blocking `recv` on the connection can yield inside
`__detect_request_from_socket`: a chunk of data (the empty chunk models the
peer half-closing, `recv` returning `b''`) or a `socket.timeout`.  An
exhausted event list is read as the peer having closed. -/
inductive ReadEv where
  | data (chunk : Str)
  | timeout
deriving DecidableEq

/-- The three ways `HTTPConnectionHandler.get_request` can come back to
`handle_tcp_connection`: a complete frame cut out of the buffer, `None`
after the peer closed, or a raised `RecvTimeoutError`. -/
inductive FrameResult where
  | frame (f : Str)
  | closed
  | timedOut
deriving DecidableEq

/-- `HTTPConnectionHandler.get_request` / `__detect_request_from_socket`
without the parse step: loop, first checking `unprocessed_data` for a
complete request and cutting it out, otherwise appending the next `recv`
chunk (breaking with `None` on an empty read, raising `RecvTimeoutError`
on a timeout).  Returns the result together with the remaining
`unprocessed_data` and the unconsumed read events. -/
def get_request (buf : Str) (evs : List ReadEv) : FrameResult × Str × List ReadEv :=
  match extractFrame buf with
  | some (f, r) => (.frame f, r, evs)
  | none =>
    match evs with
    | [] => (.closed, buf, [])
    | .data c :: es => if c = [] then (.closed, buf, es) else get_request (buf ++ c) es
    | .timeout :: es => (.timedOut, buf, es)

theorem get_request_eq (buf : Str) (evs : List ReadEv) :
    get_request buf evs =
      match extractFrame buf with
      | some (f, r) => (.frame f, r, evs)
      | none =>
        match evs with
        | [] => (.closed, buf, [])
        | .data c :: es => if c = [] then (.closed, buf, es) else get_request (buf ++ c) es
        | .timeout :: es => (.timedOut, buf, es) := by
  cases evs with
  | nil => rw [get_request.eq_1]
  | cons e es =>
    cases e with
    | data c => rw [get_request.eq_2]
    | timeout => rw [get_request.eq_3]

/-- Size of a read event, used as a termination measure for the session
loop: consuming an event always costs at least one. -/
def evSize : ReadEv → Nat
  | .data c => c.length + 1
  | .timeout => 1

/-- Termination measure of the session loop: buffered characters plus the
sizes of the unread events. -/
def sessionMeasure (buf : Str) (evs : List ReadEv) : Nat :=
  buf.length + (evs.map evSize).sum

theorem get_request_frame_measure {buf : Str} {evs : List ReadEv} {f buf' : Str}
    {evs' : List ReadEv} (h : get_request buf evs = (.frame f, buf', evs')) :
    sessionMeasure buf' evs' < sessionMeasure buf evs := by
  induction evs generalizing buf with
  | nil =>
    rw [get_request_eq] at h
    cases he : extractFrame buf with
    | none => rw [he] at h; simp at h
    | some p =>
      obtain ⟨ff, rr⟩ := p
      rw [he] at h
      simp only [Prod.mk.injEq, FrameResult.frame.injEq] at h
      obtain ⟨-, h2, h3⟩ := h
      subst h2; subst h3
      simpa [sessionMeasure] using extractFrame_some_len he
  | cons e es ih =>
    rw [get_request_eq] at h
    cases he : extractFrame buf with
    | some p =>
      obtain ⟨ff, rr⟩ := p
      rw [he] at h
      simp only [Prod.mk.injEq, FrameResult.frame.injEq] at h
      obtain ⟨-, h2, h3⟩ := h
      subst h2; subst h3
      simpa [sessionMeasure] using extractFrame_some_len he
    | none =>
      rw [he] at h
      cases e with
      | data c =>
        simp only at h
        split at h
        · simp at h
        · have := ih h
          simp only [sessionMeasure, List.map_cons, List.sum_cons, List.length_append,
            evSize] at this ⊢
          omega
      | timeout => simp at h

/-- All frames greedily extracted from an already-buffered byte stream:
the frame sequence the framer yields when the whole stream has arrived. -/
def framesOf (s : Str) : List Str :=
  match h : extractFrame s with
  | some (f, r) => f :: framesOf r
  | none => []
termination_by s.length
decreasing_by exact extractFrame_some_len h

/-- The sequence of frames successive `get_request` calls hand to
`handle_tcp_connection` over a whole session: iterate `get_request` until
the connection closes or times out. -/
def runFramer (buf : Str) (evs : List ReadEv) : List Str :=
  match h : get_request buf evs with
  | (.frame f, buf', evs') => f :: runFramer buf' evs'
  | (.closed, _, _) => []
  | (.timedOut, _, _) => []
termination_by sessionMeasure buf evs
decreasing_by exact get_request_frame_measure h

/-- `HTTPServer.handle_tcp_connection`: the per-connection session loop.
Returns the outputs written to the connection in order and the uncaught
exception that aborted the session, if any.  `RecvTimeoutError` with
pending `unprocessed_data` and `BadRequestError` each send a 400 before
the `finally` block closes the socket; an exception escaping
`__serve_file` still closes the socket and then aborts the handler. -/
def handle_tcp_connection (env : ServeEnv) (buf : Str) (evs : List ReadEv) :
    List Out × Option SErr :=
  match h : get_request buf evs with
  | (.frame f, buf', evs') =>
    match parse_request f with
    | .error _ => ([.resp 400 connection_close_headers, .closeConn], none)
    | .ok request =>
      match serve_file env request with
      | (outs, some e) => (outs ++ [.closeConn], some e)
      | (outs, none) =>
        if request.is_connection_keep_alive then
          let p := handle_tcp_connection env buf' evs'
          (outs ++ p.1, p.2)
        else (outs ++ [.closeConn], none)
  | (.timedOut, buf', _) =>
    if buf'.length > 0 then ([.resp 400 connection_close_headers, .closeConn], none)
    else ([.closeConn], none)
  | (.closed, _, _) => ([.closeConn], none)
termination_by sessionMeasure buf evs
decreasing_by exact get_request_frame_measure h

theorem get_request_data (chunks : List Str) (buf : Str) (hne : ∀ c ∈ chunks, c ≠ []) :
    (∃ k f r, extractFrame (buf ++ (chunks.take k).flatten) = some (f, r) ∧
       get_request buf (chunks.map ReadEv.data) = (.frame f, r, (chunks.drop k).map ReadEv.data))
    ∨ (extractFrame (buf ++ chunks.flatten) = none ∧
       get_request buf (chunks.map ReadEv.data) = (.closed, buf ++ chunks.flatten, [])) := by
  induction chunks generalizing buf with
  | nil =>
    rw [get_request_eq]
    cases he : extractFrame buf with
    | some p =>
      left
      exact ⟨0, p.1, p.2, by simpa using he, by simp⟩
    | none =>
      right
      refine ⟨by simpa using he, by simp⟩
  | cons c cs ih =>
    rw [get_request_eq]
    cases he : extractFrame buf with
    | some p =>
      left
      exact ⟨0, p.1, p.2, by simpa using he, by simp⟩
    | none =>
      have hc : c ≠ [] := hne c (by simp)
      simp only [List.map_cons, if_neg hc]
      rcases ih (buf ++ c) (fun d hd => hne d (by simp [hd])) with ⟨k, f, r, h1, h2⟩ | ⟨h1, h2⟩
      · left
        refine ⟨k + 1, f, r, ?_, ?_⟩
        · simpa [List.append_assoc] using h1
        · rw [h2]
          simp
      · right
        refine ⟨by simpa [List.append_assoc] using h1, by rw [h2]; simp [List.append_assoc]⟩

theorem framesOf_eq (s : Str) :
    framesOf s = match extractFrame s with
      | some (f, r) => f :: framesOf r
      | none => [] := by
  rw [framesOf]
  split
  · next f r heq => rw [heq]
  · next heq => rw [heq]

theorem runFramer_eq (buf : Str) (evs : List ReadEv) :
    runFramer buf evs = match get_request buf evs with
      | (.frame f, buf', evs') => f :: runFramer buf' evs'
      | (.closed, _, _) => []
      | (.timedOut, _, _) => [] := by
  rw [runFramer]
  split
  · next f buf' evs' heq => rw [heq]
  · next b e heq => rw [heq]
  · next b e heq => rw [heq]

theorem runFramer_framesOf (buf : Str) (evs : List ReadEv) :
    ∀ chunks : List Str, evs = chunks.map ReadEv.data → (∀ c ∈ chunks, c ≠ []) →
      runFramer buf evs = framesOf (buf ++ chunks.flatten) := by
  induction buf, evs using runFramer.induct with
  | case1 buf evs f buf' evs' hget ih =>
    intro chunks hevs hne
    subst hevs
    rcases get_request_data chunks buf hne with ⟨k, f2, r2, h1, h2⟩ | ⟨h1, h2⟩
    · rw [hget] at h2
      simp only [Prod.mk.injEq, FrameResult.frame.injEq] at h2
      obtain ⟨hf2, hr2, hevs'⟩ := h2
      subst hf2; subst hr2
      have hsplit : buf ++ chunks.flatten =
          (buf ++ (chunks.take k).flatten) ++ (chunks.drop k).flatten := by
        rw [List.append_assoc, ← List.flatten_append, List.take_append_drop]
      have hext := extractFrame_append h1 (s := (chunks.drop k).flatten)
      rw [runFramer_eq, hget, hsplit, framesOf_eq, hext]
      have hrec := ih (chunks.drop k) hevs' (fun d hd => hne d (List.mem_of_mem_drop hd))
      show f :: runFramer buf' evs' = f :: framesOf (buf' ++ (chunks.drop k).flatten)
      rw [hrec]
    · rw [hget] at h2
      simp at h2
  | case2 buf evs b e hget =>
    intro chunks hevs hne
    subst hevs
    rcases get_request_data chunks buf hne with ⟨k, f2, r2, h1, h2⟩ | ⟨h1, h2⟩
    · rw [hget] at h2
      simp at h2
    · rw [runFramer_eq, hget, framesOf_eq, h1]
  | case3 buf evs b e hget =>
    intro chunks hevs hne
    subst hevs
    rcases get_request_data chunks buf hne with ⟨k, f2, r2, h1, h2⟩ | ⟨h1, h2⟩
    · rw [hget] at h2
      simp at h2
    · rw [hget] at h2
      simp at h2

/-- Claim-side well-formedness of a frame: the request line splits on
single spaces into exactly three tokens with method `GET` and version
`HTTP/1.1`, every subsequent line splits on `': '` into exactly one
key/value pair, and the key `Host` occurs among the header keys. -/
def goodFrame (request_string : Str) : Prop :=
  match splitCRLF request_string with
  | [] => False
  | headline :: rest =>
    (match splitOnChar ' ' headline with
     | [command, _, http_version] =>
       command = "GET".toList ∧ http_version = "HTTP/1.1".toList
     | _ => False) ∧
    (∀ line ∈ rest, (splitColonSpace line).length = 2) ∧
    (∃ line ∈ rest, ∃ v, splitColonSpace line = ["Host".toList, v])

/-- Claim-side reading of "the last occurrence's value wins": the value on
the last header line carrying the given key. -/
def lastHeaderValue (key : Str) (lines : List Str) : Option Str :=
  lines.reverse.findSome? (fun line =>
    match splitColonSpace line with
    | [k, v] => if k = key then some v else none
    | _ => none)

theorem lookup_eq_none_of_not_any (d : List (Str × Str)) (k : Str)
    (h : d.any (fun p => p.1 == k) = false) : List.lookup k d = none := by
  induction d with
  | nil => rfl
  | cons p d' ih =>
    obtain ⟨pk, pv⟩ := p
    simp only [List.any_cons, Bool.or_eq_false_iff] at h
    rw [List.lookup_cons]
    have hk : (k == pk) = false := by
      have h1 : (pk == k) = false := h.1
      simp only [beq_eq_false_iff_ne] at h1 ⊢
      exact fun hc => h1 hc.symm
    rw [hk]
    exact ih h.2

theorem lookup_dictInsert_self (d : List (Str × Str)) (k v : Str) :
    List.lookup k (dictInsert d k v) = some v := by
  rw [dictInsert]
  split
  · next hany =>
    induction d with
    | nil => simp at hany
    | cons p d' ih =>
      obtain ⟨pk, pv⟩ := p
      simp only [List.any_cons, Bool.or_eq_true] at hany
      rcases hb : (pk == k) with _ | _
      · rw [List.map_cons]
        rw [if_neg (by simp [hb])]
        rw [List.lookup_cons]
        have hk : (k == pk) = false := by
          simp only [beq_eq_false_iff_ne] at hb ⊢
          exact fun hc => hb hc.symm
        rw [hk]
        apply ih
        rcases hany with h1 | h2
        · rw [hb] at h1
          exact absurd h1 (by simp)
        · exact h2
      · rw [List.map_cons]
        rw [if_pos (by simp [hb])]
        rw [List.lookup_cons]
        simp
  · next hany =>
    have hfalse : d.any (fun p => p.1 == k) = false := by
      simp only [Bool.not_eq_true] at hany
      exact hany
    rw [List.lookup_append, lookup_eq_none_of_not_any d k hfalse]
    rw [List.lookup_cons]
    simp

theorem lookup_dictInsert_ne (d : List (Str × Str)) (k k' v : Str) (h : k ≠ k') :
    List.lookup k (dictInsert d k' v) = List.lookup k d := by
  have hkk : (k == k') = false := by simpa using h
  rw [dictInsert]
  split
  · next hany =>
    clear hany
    induction d with
    | nil => rfl
    | cons p d' ih =>
      obtain ⟨pk, pv⟩ := p
      rw [List.map_cons, List.lookup_cons]
      rcases hb : (pk == k') with _ | _
      · rw [if_neg (by simp [hb])]
        rw [List.lookup_cons]
        cases hkp : (k == pk) with
        | true => rfl
        | false => exact ih
      · rw [if_pos (by simp [hb])]
        have hpk : pk = k' := by simpa using hb
        rw [List.lookup_cons, hkk, hpk, hkk]
        exact ih
  · next hany =>
    rw [List.lookup_append]
    have h2 : List.lookup k [(k', v)] = none := by
      rw [List.lookup_cons, hkk]
      rfl
    rw [h2, Option.or_none]

theorem any_dictInsert (d : List (Str × Str)) (k v q : Str) :
    (dictInsert d k v).any (fun p => p.1 == q) =
      ((k == q) || d.any (fun p => p.1 == q)) := by
  rw [dictInsert]
  split
  · next hany =>
    have hmap : ∀ t : List (Str × Str),
        (List.map (fun p => if p.1 == k then (k, v) else p) t).any (fun p => p.1 == q) =
          t.any (fun p => p.1 == q) := by
      intro t
      induction t with
      | nil => rfl
      | cons p t' iht =>
        obtain ⟨pk, pv⟩ := p
        rw [List.map_cons, List.any_cons, List.any_cons, iht]
        by_cases hp : (pk == k) = true
        · have hpk : pk = k := by simpa using hp
          subst hpk
          rw [if_pos (by simpa using hp)]
        · rw [if_neg hp]
    rw [hmap]
    rcases hq : (k == q) with _ | _
    · simp
    · have hk : k = q := by simpa using hq
      subst hk
      simp [hany]
  · next hany =>
    rw [List.any_append]
    simp [Bool.or_comm]

theorem parseHeaders_ok_iff (lines : List Str) (acc : List (Str × Str)) :
    (∃ h, parseHeaders lines acc = .ok h) ↔
      ∀ line ∈ lines, (splitColonSpace line).length = 2 := by
  induction lines generalizing acc with
  | nil => simp [parseHeaders]
  | cons line rest ih =>
    rw [parseHeaders]
    rcases hsp : splitColonSpace line with _ | ⟨x, _ | ⟨y, _ | ⟨z, t⟩⟩⟩
    · constructor
      · rintro ⟨h, hh⟩
        simp at hh
      · intro hall
        exact absurd (hall line (by simp)) (by rw [hsp]; simp)
    · constructor
      · rintro ⟨h, hh⟩
        simp at hh
      · intro hall
        exact absurd (hall line (by simp)) (by rw [hsp]; simp)
    · rw [ih (dictInsert acc x y)]
      simp [List.forall_mem_cons, hsp]
    · constructor
      · rintro ⟨h, hh⟩
        simp at hh
      · intro hall
        exact absurd (hall line (by simp)) (by rw [hsp]; simp)

theorem parseHeaders_lookup (lines : List Str) (acc h : List (Str × Str)) (k : Str)
    (hok : parseHeaders lines acc = .ok h) :
    List.lookup k h = (lastHeaderValue k lines).or (List.lookup k acc) := by
  induction lines generalizing acc with
  | nil =>
    simp only [parseHeaders, Except.ok.injEq] at hok
    subst hok
    simp [lastHeaderValue]
  | cons line rest ih =>
    rw [parseHeaders] at hok
    rcases hsp : splitColonSpace line with _ | ⟨x, _ | ⟨y, _ | ⟨z, t⟩⟩⟩ <;> rw [hsp] at hok
    · simp at hok
    · simp at hok
    · have hrec := ih (dictInsert acc x y) hok
      have hlast : lastHeaderValue k (line :: rest) =
          (lastHeaderValue k rest).or (if x = k then some y else none) := by
        rw [lastHeaderValue, lastHeaderValue, List.reverse_cons, List.findSome?_append]
        simp only [List.findSome?_cons, List.findSome?_nil, hsp]
        by_cases hxk : x = k <;> simp [hxk]
      by_cases hxk : x = k
      · subst hxk
        rw [lookup_dictInsert_self] at hrec
        rw [hrec, hlast, if_pos rfl]
        cases lastHeaderValue x rest <;> simp
      · rw [lookup_dictInsert_ne acc k x y (fun hc => hxk hc.symm)] at hrec
        rw [hrec, hlast, if_neg hxk]
        cases lastHeaderValue k rest <;> simp
    · simp at hok

theorem parseHeaders_hasKey (lines : List Str) (acc h : List (Str × Str)) (q : Str)
    (hok : parseHeaders lines acc = .ok h) :
    h.any (fun p => p.1 == q) =
      (acc.any (fun p => p.1 == q) ||
        lines.any (fun line =>
          match splitColonSpace line with
          | [key, _] => key == q
          | _ => false)) := by
  induction lines generalizing acc with
  | nil =>
    simp only [parseHeaders, Except.ok.injEq] at hok
    subst hok
    simp
  | cons line rest ih =>
    rw [parseHeaders] at hok
    rcases hsp : splitColonSpace line with _ | ⟨x, _ | ⟨y, _ | ⟨z, t⟩⟩⟩ <;> rw [hsp] at hok
    · simp at hok
    · simp at hok
    · have hrec := ih (dictInsert acc x y) hok
      rw [hrec, any_dictInsert]
      simp only [List.any_cons, hsp]
      cases x == q <;> cases acc.any (fun p => p.1 == q) <;> simp
    · simp at hok

theorem any_hostkey_iff (lines : List Str) (q : Str) :
    lines.any (fun line =>
      match splitColonSpace line with
      | [key, _] => key == q
      | _ => false) = true ↔ ∃ line ∈ lines, ∃ v, splitColonSpace line = [q, v] := by
  rw [List.any_eq_true]
  constructor
  · rintro ⟨line, hmem, hline⟩
    refine ⟨line, hmem, ?_⟩
    rcases hsp : splitColonSpace line with _ | ⟨x, _ | ⟨y, _ | ⟨z, t⟩⟩⟩ <;> rw [hsp] at hline
    · simp at hline
    · simp at hline
    · have hx : x = q := by simpa using hline
      exact ⟨y, by rw [hx]⟩
    · simp at hline
  · rintro ⟨line, hmem, v, hsp⟩
    refine ⟨line, hmem, ?_⟩
    rw [hsp]
    simp

/-- C3: `__parse_request` succeeds exactly on well-formed frames, and
duplicate header keys resolve to the last occurrence's value. -/
theorem parse_request_characterization (request_string : Str) :
    ((parse_request request_string).isOk = true ↔ goodFrame request_string) ∧
    (∀ r k, parse_request request_string = .ok r →
      List.lookup k r.headers = lastHeaderValue k (splitCRLF request_string).tail) := by
  rw [parse_request, goodFrame]
  rcases hsl : splitCRLF request_string with _ | ⟨headline, rest⟩
  · constructor
    · simp [Except.isOk, Except.toBool]
    · intro r k h
      simp at h
  · simp only [List.tail_cons]
    rcases hhl : splitOnChar ' ' headline with _ | ⟨t1, _ | ⟨t2, _ | ⟨t3, _ | ⟨t4, ts⟩⟩⟩⟩
    · simp [Except.isOk, Except.toBool]
    · simp [Except.isOk, Except.toBool]
    · simp [Except.isOk, Except.toBool]
    · dsimp only
      by_cases h1 : t1 = "GET".toList
      case neg =>
        rw [if_pos h1]
        constructor
        · constructor
          · intro hok
            simp [Except.isOk, Except.toBool] at hok
          · rintro ⟨⟨ht1, -⟩, -, -⟩
            exact absurd ht1 h1
        · intro r k hok
          simp at hok
      case pos =>
        subst h1
        rw [if_neg (by simp)]
        by_cases h3 : t3 = "HTTP/1.1".toList
        case neg =>
          rw [if_pos h3]
          constructor
          · constructor
            · intro hok
              simp [Except.isOk, Except.toBool] at hok
            · rintro ⟨⟨-, ht3⟩, -, -⟩
              exact absurd ht3 h3
          · intro r k hok
            simp at hok
        case pos =>
          subst h3
          rw [if_neg (by simp)]
          cases hph : parseHeaders rest [] with
          | error e =>
            have hbad : ¬ ∀ line ∈ rest, (splitColonSpace line).length = 2 := by
              intro hall
              obtain ⟨hh, hhh⟩ := (parseHeaders_ok_iff rest []).mpr hall
              rw [hph] at hhh
              simp at hhh
            constructor
            · constructor
              · intro hok
                simp [Except.isOk, Except.toBool] at hok
              · rintro ⟨-, hall, -⟩
                exact absurd hall hbad
            · intro r k hok
              simp at hok
          | ok headers =>
            dsimp only
            have hkey := parseHeaders_hasKey rest [] headers ("Host".toList) hph
            rw [List.any_nil, Bool.false_or] at hkey
            by_cases hhost : headers.any (fun p => p.1 == "Host".toList) = true
            · rw [if_pos hhost]
              constructor
              · constructor
                · intro _
                  refine ⟨⟨rfl, rfl⟩, (parseHeaders_ok_iff rest []).mp ⟨headers, hph⟩, ?_⟩
                  rw [← any_hostkey_iff rest ("Host".toList), ← hkey]
                  exact hhost
                · intro _
                  simp [Except.isOk, Except.toBool]
              · intro r k hok
                have hr : r = ⟨"GET".toList, t2, headers⟩ := by
                  cases hok
                  rfl
                subst hr
                have hlk := parseHeaders_lookup rest [] headers k hph
                rw [List.lookup_nil, Option.or_none] at hlk
                exact hlk
            · rw [if_neg hhost]
              constructor
              · constructor
                · intro hok
                  simp [Except.isOk, Except.toBool] at hok
                · rintro ⟨-, -, hex⟩
                  rw [← any_hostkey_iff rest ("Host".toList), ← hkey] at hex
                  exact absurd hex hhost
              · intro r k hok
                simp at hok
    · simp [Except.isOk, Except.toBool]

/-- Number of response heads (`send_response` calls) among session outputs. -/
def countResp (outs : List Out) : Nat :=
  outs.countP (fun o => match o with | .resp _ _ => true | _ => false)

/-- Claim-side meaning of "the canonicalized joined path resolves outside
the canonicalized docroot": the canonical path is neither the docroot
itself nor a path below the docroot directory. -/
def resolvesOutsideDocroot (env : ServeEnv) (request : HTTPRequest) : Prop :=
  ¬ (resolved_request_path env request = abs_docroot_path env ∨
     (abs_docroot_path env ++ ['/']).isPrefixOf (resolved_request_path env request) = true)

theorem handle_tcp_connection_eq (env : ServeEnv) (buf : Str) (evs : List ReadEv) :
    handle_tcp_connection env buf evs =
      match get_request buf evs with
      | (.frame f, buf', evs') =>
        match parse_request f with
        | .error _ => ([.resp 400 connection_close_headers, .closeConn], none)
        | .ok request =>
          match serve_file env request with
          | (outs, some e) => (outs ++ [.closeConn], some e)
          | (outs, none) =>
            if request.is_connection_keep_alive then
              let p := handle_tcp_connection env buf' evs'
              (outs ++ p.1, p.2)
            else (outs ++ [.closeConn], none)
      | (.timedOut, buf', _) =>
        if buf'.length > 0 then ([.resp 400 connection_close_headers, .closeConn], none)
        else ([.closeConn], none)
      | (.closed, _, _) => ([.closeConn], none) := by
  rw [handle_tcp_connection]
  split
  · next f buf' evs' heq => rw [heq]
  · next buf' e heq => rw [heq]
  · next b e heq => rw [heq]

theorem countResp_serve_file (env : ServeEnv) (request : HTTPRequest) :
    countResp (serve_file env request).1 = 1 := by
  rw [serve_file]
  dsimp only
  split
  · split <;> rfl
  · split
    · split <;> rfl
    · rfl

theorem handle_frame_ok_close (env : ServeEnv) (buf : Str) (evs : List ReadEv)
    (f buf' : Str) (evs' : List ReadEv) (request : HTTPRequest) (outs : List Out)
    (hget : get_request buf evs = (.frame f, buf', evs'))
    (hparse : parse_request f = .ok request)
    (hserve : serve_file env request = (outs, none))
    (hka : request.is_connection_keep_alive = false) :
    handle_tcp_connection env buf evs = (outs ++ [.closeConn], none) := by
  rw [handle_tcp_connection_eq, hget]
  dsimp only
  rw [hparse]
  dsimp only
  rw [hserve]
  dsimp only
  rw [if_neg (by simp [hka])]

theorem handle_frame_ok_continue (env : ServeEnv) (buf : Str) (evs : List ReadEv)
    (f buf' : Str) (evs' : List ReadEv) (request : HTTPRequest) (outs : List Out)
    (hget : get_request buf evs = (.frame f, buf', evs'))
    (hparse : parse_request f = .ok request)
    (hserve : serve_file env request = (outs, none))
    (hka : request.is_connection_keep_alive = true) :
    handle_tcp_connection env buf evs =
      (outs ++ (handle_tcp_connection env buf' evs').1,
       (handle_tcp_connection env buf' evs').2) := by
  rw [handle_tcp_connection_eq, hget]
  dsimp only
  rw [hparse]
  dsimp only
  rw [hserve]
  dsimp only
  rw [if_pos hka]

theorem handle_frame_serve_error (env : ServeEnv) (buf : Str) (evs : List ReadEv)
    (f buf' : Str) (evs' : List ReadEv) (request : HTTPRequest) (outs : List Out) (e : SErr)
    (hget : get_request buf evs = (.frame f, buf', evs'))
    (hparse : parse_request f = .ok request)
    (hserve : serve_file env request = (outs, some e)) :
    handle_tcp_connection env buf evs = (outs ++ [.closeConn], some e) := by
  rw [handle_tcp_connection_eq, hget]
  dsimp only
  rw [hparse]
  dsimp only
  rw [hserve]

/-- An environment with an empty docroot and no configured pages: every
contained request is a miss. -/
def plainEnv : ServeEnv :=
  { cwd := "/".toList
    serve_docroot := "/srv/www".toList
    cfg_index := none
    cfg_400 := none
    cfg_404 := none
    path_exists := fun _ => false
    getsize := fun _ => 0
    guess_type := fun _ => none
    last_modified := fun _ => []
    sendfile_bytes := fun _ => 0 }

/-- An environment whose docroot holds one three-byte file `a.txt` with no
mime-type guess. -/
def fileEnv : ServeEnv :=
  { cwd := "/".toList
    serve_docroot := "/srv/www".toList
    cfg_index := none
    cfg_400 := none
    cfg_404 := none
    path_exists := fun p => p == "/srv/www/a.txt".toList
    getsize := fun _ => 3
    guess_type := fun _ => none
    last_modified := fun _ => "Mon, 01 Jan 24 00:00:00 ".toList
    sendfile_bytes := fun _ => 3 }

/-- An environment with a configured custom 404 page and no files. -/
def missingPageEnv : ServeEnv :=
  { cwd := "/".toList
    serve_docroot := "/srv/www".toList
    cfg_index := none
    cfg_400 := none
    cfg_404 := some "404.html".toList
    path_exists := fun _ => false
    getsize := fun _ => 0
    guess_type := fun _ => none
    last_modified := fun _ => []
    sendfile_bytes := fun _ => 0 }

/-- An environment whose filesystem holds a file in a sibling directory of
the docroot whose name shares the docroot as a string prefix. -/
def escapeEnv : ServeEnv :=
  { cwd := "/".toList
    serve_docroot := "/srv/www".toList
    cfg_index := none
    cfg_400 := none
    cfg_404 := none
    path_exists := fun p => p == "/srv/www-secret/x.html".toList
    getsize := fun _ => 5
    guess_type := fun _ => none
    last_modified := fun _ => "Mon, 01 Jan 24 00:00:00 ".toList
    sendfile_bytes := fun _ => 5 }

/-- A traversal request aimed at the sibling directory. -/
def escapeRequest : HTTPRequest :=
  ⟨"GET".toList, "/../www-secret/x.html".toList, [("Host".toList, "a".toList)]⟩

instance (env : ServeEnv) (request : HTTPRequest) :
    Decidable (resolvesOutsideDocroot env request) := by
  unfold resolvesOutsideDocroot
  infer_instance

/-- C1 counterexample: a `GET /../www-secret/x.html` request against
docroot `/srv/www` canonicalizes to `/srv/www-secret/x.html`, which
resolves outside the docroot, yet `__serve_file` answers 200 and streams
the file, because the containment check is only a string-prefix test. -/
theorem serve_escape_counterexample :
    "../".toList <:+: escapeRequest.path ∧
    resolvesOutsideDocroot escapeEnv escapeRequest ∧
    serve_file escapeEnv escapeRequest =
      ([.resp 200 [("Content-Type".toList, PyVal.vNone),
                   ("Content-Length".toList, PyVal.vInt 5),
                   ("Last-Modified".toList, PyVal.vStr "Mon, 01 Jan 24 00:00:00 ".toList)],
        .fileOut "/srv/www-secret/x.html".toList 5], none) :=
  ⟨by decide, by decide, by decide⟩

/-- C1 (amended): dispatch answers 400 and never streams a file exactly
when the canonicalized path fails the string-prefix test against the
canonicalized docroot; the 400 head is the only output either way
(with a configured 400 page the `send_body` call raises before
streaming anything). -/
theorem serve_blocks_on_prefix_failure (env : ServeEnv) (request : HTTPRequest)
    (h : ¬ (abs_docroot_path env).isPrefixOf (resolved_request_path env request) = true) :
    (serve_file env request).1 = [.resp 400 connection_close_headers] ∧
    ∀ o ∈ (serve_file env request).1, ∀ p n, o ≠ Out.fileOut p n := by
  rw [serve_file]
  dsimp only
  rw [if_pos h]
  cases env.cfg_400 <;> simp

theorem serve_blocks_on_prefix_failure_witness :
    ¬ ((abs_docroot_path plainEnv).isPrefixOf
        (resolved_request_path plainEnv
          ⟨"GET".toList, "/../../etc/passwd".toList, [("Host".toList, "a".toList)]⟩) = true) ∧
    (serve_file plainEnv
        ⟨"GET".toList, "/../../etc/passwd".toList, [("Host".toList, "a".toList)]⟩).1 =
      [.resp 400 connection_close_headers] :=
  ⟨by decide,
   (serve_blocks_on_prefix_failure plainEnv
     ⟨"GET".toList, "/../../etc/passwd".toList, [("Host".toList, "a".toList)]⟩ (by decide)).1⟩

/-- C2: with `serve_config['404'] = '404.html'`, a request for a missing
file sends the 404 head and then the `send_body` call raises
`AttributeError` (`HTTPConnectionHandler` defines `send_file`, not
`send_body`), so the configured page's bytes are never streamed and the
session aborts. -/
theorem serve_404_config_attribute_error :
    serve_file missingPageEnv
        ⟨"GET".toList, "/missing.txt".toList, [("Host".toList, "a".toList)]⟩ =
      ([.resp 404 connection_close_headers], some .attrError) := by decide

/-- C3: `__parse_request` returns a structured request iff the request
line splits on single spaces into exactly three tokens with method `GET`
and version `HTTP/1.1`, every subsequent line splits on `': '` into
exactly one key/value pair and the key `Host` occurs among them; in every
other case it fails with `BadRequestError`, and when a header key occurs
on several lines the last occurrence's value wins. -/
theorem parse_request_iff_goodFrame (request_string : Str) :
    ((parse_request request_string).isOk = true ↔ goodFrame request_string) ∧
    (∀ r k, parse_request request_string = .ok r →
      List.lookup k r.headers = lastHeaderValue k (splitCRLF request_string).tail) :=
  parse_request_characterization request_string

theorem parse_request_iff_goodFrame_witness :
    parse_request "GET / HTTP/1.1\r\nHost: a\r\nHost: b".toList =
      .ok ⟨"GET".toList, "/".toList, [("Host".toList, "b".toList)]⟩ ∧
    goodFrame "GET / HTTP/1.1\r\nHost: a\r\nHost: b".toList ∧
    List.lookup "Host".toList
        (HTTPRequest.headers ⟨"GET".toList, "/".toList, [("Host".toList, "b".toList)]⟩) =
      some "b".toList := by
  have hok : parse_request "GET / HTTP/1.1\r\nHost: a\r\nHost: b".toList =
      .ok ⟨"GET".toList, "/".toList, [("Host".toList, "b".toList)]⟩ := by decide
  have hchar := parse_request_iff_goodFrame "GET / HTTP/1.1\r\nHost: a\r\nHost: b".toList
  refine ⟨hok, hchar.1.mp (by rw [hok]; rfl), ?_⟩
  have hl := hchar.2 ⟨"GET".toList, "/".toList, [("Host".toList, "b".toList)]⟩ "Host".toList hok
  rw [hl]
  decide

/-- C4: for a contained, existing path, the 200 head declares
`Content-Length` equal to `os.path.getsize`, `send_file` streams the
reported byte count, the session errors with `AssertionError` exactly
when that count differs from the declared length, and an erroring serve
aborts the whole session after closing the socket. -/
theorem serve_200_content_length (env : ServeEnv) (request : HTTPRequest)
    (hpre : (abs_docroot_path env).isPrefixOf (resolved_request_path env request) = true)
    (hex : env.path_exists (resolved_request_path env request) = true) :
    serve_file env request =
      ([.resp 200 [("Content-Type".toList,
          match env.guess_type (resolved_request_path env request) with
          | some m => PyVal.vStr m
          | none => PyVal.vNone),
        ("Content-Length".toList, PyVal.vInt (env.getsize (resolved_request_path env request))),
        ("Last-Modified".toList,
          PyVal.vStr (env.last_modified (resolved_request_path env request)))],
        .fileOut (resolved_request_path env request)
          (env.sendfile_bytes (resolved_request_path env request))],
       if env.sendfile_bytes (resolved_request_path env request) =
           env.getsize (resolved_request_path env request) then none
       else some SErr.assertError) ∧
    ((serve_file env request).2 = none ↔
      env.sendfile_bytes (resolved_request_path env request) =
        env.getsize (resolved_request_path env request)) ∧
    (∀ buf evs f buf' evs' outs e,
      get_request buf evs = (.frame f, buf', evs') →
      parse_request f = .ok request →
      serve_file env request = (outs, some e) →
      handle_tcp_connection env buf evs = (outs ++ [.closeConn], some e)) := by
  have hmain : serve_file env request =
      ([.resp 200 [("Content-Type".toList,
          match env.guess_type (resolved_request_path env request) with
          | some m => PyVal.vStr m
          | none => PyVal.vNone),
        ("Content-Length".toList, PyVal.vInt (env.getsize (resolved_request_path env request))),
        ("Last-Modified".toList,
          PyVal.vStr (env.last_modified (resolved_request_path env request)))],
        .fileOut (resolved_request_path env request)
          (env.sendfile_bytes (resolved_request_path env request))],
       if env.sendfile_bytes (resolved_request_path env request) =
           env.getsize (resolved_request_path env request) then none
       else some SErr.assertError) := by
    rw [serve_file]
    dsimp only
    rw [if_neg (by simp [hpre]), if_neg (by simp [hex])]
  refine ⟨hmain, ?_, ?_⟩
  · rw [hmain]
    dsimp only
    by_cases hs : env.sendfile_bytes (resolved_request_path env request) =
        env.getsize (resolved_request_path env request)
    · rw [if_pos hs]
      simp [hs]
    · rw [if_neg hs]
      simp [hs]
  · intro buf evs f buf' evs' outs e hget hparse hserve
    exact handle_frame_serve_error env buf evs f buf' evs' request outs e hget hparse hserve

theorem serve_200_content_length_witness :
    (abs_docroot_path fileEnv).isPrefixOf
        (resolved_request_path fileEnv
          ⟨"GET".toList, "/a.txt".toList, [("Host".toList, "a".toList)]⟩) = true ∧
    fileEnv.path_exists
        (resolved_request_path fileEnv
          ⟨"GET".toList, "/a.txt".toList, [("Host".toList, "a".toList)]⟩) = true ∧
    ((serve_file fileEnv ⟨"GET".toList, "/a.txt".toList, [("Host".toList, "a".toList)]⟩).2 = none ↔
      fileEnv.sendfile_bytes
          (resolved_request_path fileEnv
            ⟨"GET".toList, "/a.txt".toList, [("Host".toList, "a".toList)]⟩) =
        fileEnv.getsize
          (resolved_request_path fileEnv
            ⟨"GET".toList, "/a.txt".toList, [("Host".toList, "a".toList)]⟩)) :=
  ⟨by decide, by decide,
   (serve_200_content_length fileEnv
     ⟨"GET".toList, "/a.txt".toList, [("Host".toList, "a".toList)]⟩
     (by decide) (by decide)).2.1⟩

/-- Character-level chunking invariance: once each read is decoded, the
frame sequence does not depend on how the decoded text is partitioned
into successive nonempty chunks. -/
theorem framer_chunking_invariance (chunks : List Str) (hne : ∀ c ∈ chunks, c ≠ []) :
    runFramer [] (chunks.map ReadEv.data) = runFramer [] [ReadEv.data chunks.flatten] := by
  rw [runFramer_framesOf [] (chunks.map ReadEv.data) chunks rfl hne]
  by_cases hj : chunks.flatten = []
  · rw [hj]
    rw [framesOf_eq, runFramer_eq, get_request_eq]
    rfl
  · rw [runFramer_framesOf [] [ReadEv.data chunks.flatten] [chunks.flatten] rfl
      (by simpa using hj)]
    simp

theorem framer_chunking_invariance_witness :
    (∀ c ∈ ["GE".toList, "T / HTTP/1.1\r\nHost: a\r\n".toList, "\r\nXY".toList], c ≠ []) ∧
    runFramer []
        (["GE".toList, "T / HTTP/1.1\r\nHost: a\r\n".toList, "\r\nXY".toList].map ReadEv.data) =
      runFramer []
        [ReadEv.data (["GE".toList, "T / HTTP/1.1\r\nHost: a\r\n".toList, "\r\nXY".toList].flatten)] :=
  ⟨by decide, framer_chunking_invariance _ (by decide)⟩

/-- C6: whenever the buffer holds the terminator, one framer step cuts out
exactly the bytes before the first terminator occurrence as the frame and
keeps exactly the bytes after it: buffer = frame ++ terminator ++ rest,
and no terminator occurrence starts before the frame's end. -/
theorem extractFrame_exact_split (buf f r : Str) (h : extractFrame buf = some (f, r)) :
    buf = f ++ END_OF_REQUEST ++ r ∧
      ∀ j, END_OF_REQUEST.isPrefixOf (buf.drop j) = true → f.length ≤ j :=
  extractFrame_decomp h

theorem extractFrame_exact_split_witness :
    extractFrame "AB\r\n\r\nCD\r\n\r\nE".toList = some ("AB".toList, "CD\r\n\r\nE".toList) ∧
    "AB\r\n\r\nCD\r\n\r\nE".toList = "AB".toList ++ END_OF_REQUEST ++ "CD\r\n\r\nE".toList :=
  ⟨by decide,
   (extractFrame_exact_split "AB\r\n\r\nCD\r\n\r\nE".toList "AB".toList "CD\r\n\r\nE".toList
     (by decide)).1⟩

/-- C7: when a recv timeout fires, the session sends exactly one 400 and
closes if the pending buffer is nonempty, and closes with no response if
the pending buffer is empty. -/
theorem session_timeout_behavior (env : ServeEnv) (buf : Str) (evs : List ReadEv)
    (buf' : Str) (evs' : List ReadEv)
    (h : get_request buf evs = (.timedOut, buf', evs')) :
    handle_tcp_connection env buf evs =
      (if buf' = [] then ([.closeConn], none)
       else ([.resp 400 connection_close_headers, .closeConn], none)) := by
  rw [handle_tcp_connection_eq, h]
  cases buf' with
  | nil => simp
  | cons c cs => simp

theorem session_timeout_behavior_witness :
    get_request "GET /x".toList [ReadEv.timeout] = (.timedOut, "GET /x".toList, []) ∧
    handle_tcp_connection plainEnv "GET /x".toList [ReadEv.timeout] =
      ([.resp 400 connection_close_headers, .closeConn], none) ∧
    get_request [] [ReadEv.timeout] = (.timedOut, [], []) ∧
    handle_tcp_connection plainEnv [] [ReadEv.timeout] = ([.closeConn], none) := by
  refine ⟨by decide, ?_, by decide, ?_⟩
  · rw [session_timeout_behavior plainEnv "GET /x".toList [ReadEv.timeout] "GET /x".toList []
      (by decide)]
    rw [if_neg (by decide)]
  · rw [session_timeout_behavior plainEnv [] [ReadEv.timeout] [] [] (by decide)]
    rw [if_pos rfl]

/-- C8: every successfully parsed request is answered with exactly one
response head; with `Connection: keep-alive` the session then loops for
another frame on the same connection, and otherwise it closes after that
single response. -/
theorem session_keep_alive_behavior (env : ServeEnv) (buf : Str) (evs : List ReadEv)
    (f buf' : Str) (evs' : List ReadEv) (request : HTTPRequest)
    (hget : get_request buf evs = (.frame f, buf', evs'))
    (hparse : parse_request f = .ok request) :
    countResp (serve_file env request).1 = 1 ∧
    (∀ outs, serve_file env request = (outs, none) →
      (request.is_connection_keep_alive = true →
        handle_tcp_connection env buf evs =
          (outs ++ (handle_tcp_connection env buf' evs').1,
           (handle_tcp_connection env buf' evs').2)) ∧
      (request.is_connection_keep_alive = false →
        handle_tcp_connection env buf evs = (outs ++ [.closeConn], none))) := by
  refine ⟨countResp_serve_file env request, ?_⟩
  intro outs hserve
  constructor
  · intro hka
    exact handle_frame_ok_continue env buf evs f buf' evs' request outs hget hparse hserve hka
  · intro hka
    exact handle_frame_ok_close env buf evs f buf' evs' request outs hget hparse hserve hka

theorem session_keep_alive_behavior_witness :
    get_request "GET / HTTP/1.1\r\nHost: a\r\n\r\nXY".toList [] =
      (.frame "GET / HTTP/1.1\r\nHost: a".toList, "XY".toList, []) ∧
    parse_request "GET / HTTP/1.1\r\nHost: a".toList =
      .ok ⟨"GET".toList, "/".toList, [("Host".toList, "a".toList)]⟩ ∧
    serve_file plainEnv ⟨"GET".toList, "/".toList, [("Host".toList, "a".toList)]⟩ =
      ([.resp 404 connection_close_headers], none) ∧
    countResp [Out.resp 404 connection_close_headers] = 1 ∧
    handle_tcp_connection plainEnv "GET / HTTP/1.1\r\nHost: a\r\n\r\nXY".toList [] =
      ([Out.resp 404 connection_close_headers] ++ [.closeConn], none) ∧
    handle_tcp_connection plainEnv
        "GET / HTTP/1.1\r\nHost: a\r\nConnection: keep-alive\r\n\r\nGET / HTTP/1.1\r\nHost: a\r\n\r\n".toList [] =
      ([Out.resp 404 connection_close_headers] ++
        ([Out.resp 404 connection_close_headers] ++ [Out.closeConn]), none) := by
  refine ⟨by decide, by decide, by decide, by decide, ?_, ?_⟩
  · exact ((session_keep_alive_behavior plainEnv
        "GET / HTTP/1.1\r\nHost: a\r\n\r\nXY".toList []
        "GET / HTTP/1.1\r\nHost: a".toList "XY".toList []
        ⟨"GET".toList, "/".toList, [("Host".toList, "a".toList)]⟩
        (by decide) (by decide)).2
      [Out.resp 404 connection_close_headers] (by decide)).2 (by decide)
  · have hcont := ((session_keep_alive_behavior plainEnv
        "GET / HTTP/1.1\r\nHost: a\r\nConnection: keep-alive\r\n\r\nGET / HTTP/1.1\r\nHost: a\r\n\r\n".toList []
        "GET / HTTP/1.1\r\nHost: a\r\nConnection: keep-alive".toList
        "GET / HTTP/1.1\r\nHost: a\r\n\r\n".toList []
        ⟨"GET".toList, "/".toList,
          [("Host".toList, "a".toList), ("Connection".toList, "keep-alive".toList)]⟩
        (by decide) (by decide)).2
      [Out.resp 404 connection_close_headers] (by decide)).1 (by decide)
    have hclose := ((session_keep_alive_behavior plainEnv
        "GET / HTTP/1.1\r\nHost: a\r\n\r\n".toList []
        "GET / HTTP/1.1\r\nHost: a".toList [] []
        ⟨"GET".toList, "/".toList, [("Host".toList, "a".toList)]⟩
        (by decide) (by decide)).2
      [Out.resp 404 connection_close_headers] (by decide)).2 (by decide)
    rw [hcont, hclose]

/-- C9: the keep-alive test is an exact, case-sensitive equality on the
header value: the session keeps the connection open only when the parsed
headers map `Connection` to exactly `keep-alive`; any other value (such
as `Keep-Alive`) closes the connection after the single response. -/
theorem keep_alive_exact_match (request : HTTPRequest) :
    (request.is_connection_keep_alive = true ↔
      List.lookup "Connection".toList request.headers = some "keep-alive".toList) ∧
    (List.lookup "Connection".toList request.headers = some "Keep-Alive".toList →
      request.is_connection_keep_alive = false) ∧
    (∀ env buf evs f buf' evs' outs,
      get_request buf evs = (.frame f, buf', evs') →
      parse_request f = .ok request →
      serve_file env request = (outs, none) →
      List.lookup "Connection".toList request.headers ≠ some "keep-alive".toList →
      handle_tcp_connection env buf evs = (outs ++ [.closeConn], none)) := by
  have hiff : request.is_connection_keep_alive = true ↔
      List.lookup "Connection".toList request.headers = some "keep-alive".toList := by
    rw [HTTPRequest.is_connection_keep_alive]
    cases hl : List.lookup "Connection".toList request.headers with
    | none => simp
    | some v => simp
  refine ⟨hiff, ?_, ?_⟩
  · intro hl
    cases hka : request.is_connection_keep_alive with
    | false => rfl
    | true =>
      have := hiff.mp hka
      rw [hl] at this
      exact absurd this (by decide)
  · intro env buf evs f buf' evs' outs hget hparse hserve hne
    have hka : request.is_connection_keep_alive = false := by
      cases hka : request.is_connection_keep_alive with
      | false => rfl
      | true => exact absurd (hiff.mp hka) hne
    exact handle_frame_ok_close env buf evs f buf' evs' request outs hget hparse hserve hka

theorem keep_alive_exact_match_witness :
    List.lookup "Connection".toList
        (HTTPRequest.headers ⟨"GET".toList, "/".toList,
          [("Host".toList, "a".toList), ("Connection".toList, "Keep-Alive".toList)]⟩) =
      some "Keep-Alive".toList ∧
    HTTPRequest.is_connection_keep_alive
        ⟨"GET".toList, "/".toList,
          [("Host".toList, "a".toList), ("Connection".toList, "Keep-Alive".toList)]⟩ = false :=
  ⟨by decide,
   (keep_alive_exact_match
     ⟨"GET".toList, "/".toList,
       [("Host".toList, "a".toList), ("Connection".toList, "Keep-Alive".toList)]⟩).2.1
     (by decide)⟩

/-- C10: when the mime-type guess is `None`, the 200 response still
carries a `Content-Type` header and its serialized line is the string
`Content-Type: None`, while `Content-Length` and `Last-Modified` are
populated normally. -/
theorem serve_mime_none_content_type (env : ServeEnv) (request : HTTPRequest)
    (hpre : (abs_docroot_path env).isPrefixOf (resolved_request_path env request) = true)
    (hex : env.path_exists (resolved_request_path env request) = true)
    (hmime : env.guess_type (resolved_request_path env request) = none) :
    (serve_file env request).1 =
      [.resp 200 [("Content-Type".toList, PyVal.vNone),
        ("Content-Length".toList, PyVal.vInt (env.getsize (resolved_request_path env request))),
        ("Last-Modified".toList,
          PyVal.vStr (env.last_modified (resolved_request_path env request)))],
       .fileOut (resolved_request_path env request)
         (env.sendfile_bytes (resolved_request_path env request))] ∧
    "Content-Type: None".toList ∈
      response_lines 200 [("Content-Type".toList, PyVal.vNone),
        ("Content-Length".toList, PyVal.vInt (env.getsize (resolved_request_path env request))),
        ("Last-Modified".toList,
          PyVal.vStr (env.last_modified (resolved_request_path env request)))] := by
  constructor
  · rw [serve_file]
    dsimp only
    rw [if_neg (by simp [hpre]), if_neg (by simp [hex]), hmime]
  · rw [response_lines]
    have hline : "Content-Type: None".toList =
        "Content-Type".toList ++ ": ".toList ++ pyStr PyVal.vNone := by decide
    rw [hline]
    simp

theorem serve_mime_none_content_type_witness :
    fileEnv.guess_type
        (resolved_request_path fileEnv
          ⟨"GET".toList, "/a.txt".toList, [("Host".toList, "a".toList)]⟩) = none ∧
    "Content-Type: None".toList ∈
      response_lines 200 [("Content-Type".toList, PyVal.vNone),
        ("Content-Length".toList,
          PyVal.vInt (fileEnv.getsize
            (resolved_request_path fileEnv
              ⟨"GET".toList, "/a.txt".toList, [("Host".toList, "a".toList)]⟩))),
        ("Last-Modified".toList,
          PyVal.vStr (fileEnv.last_modified
            (resolved_request_path fileEnv
              ⟨"GET".toList, "/a.txt".toList, [("Host".toList, "a".toList)]⟩)))] :=
  ⟨by decide,
   (serve_mime_none_content_type fileEnv
     ⟨"GET".toList, "/a.txt".toList, [("Host".toList, "a".toList)]⟩
     (by decide) (by decide) (by decide)).2⟩

/-- A UTF-8 continuation byte (`10xxxxxx`). -/
abbrev contByte (b : Nat) : Prop := 0x80 ≤ b ∧ b ≤ 0xBF

/-- Code point of a two-byte UTF-8 sequence. -/
def cp2 (b b1 : Nat) : Nat := (b - 0xC0) * 0x40 + (b1 - 0x80)

/-- Code point of a three-byte UTF-8 sequence. -/
def cp3 (b b1 b2 : Nat) : Nat := (b - 0xE0) * 0x1000 + (b1 - 0x80) * 0x40 + (b2 - 0x80)

/-- Code point of a four-byte UTF-8 sequence. -/
def cp4 (b b1 b2 b3 : Nat) : Nat :=
  (b - 0xF0) * 0x40000 + (b1 - 0x80) * 0x1000 + (b2 - 0x80) * 0x40 + (b3 - 0x80)

/-- Decode one UTF-8 character: the first byte `b`, the following bytes
`bs`; on success return the character and the unconsumed rest.  `none` is
a decode error: invalid lead byte, missing or invalid continuation bytes,
overlong encoding, surrogate, or code point above U+10FFFF. -/
def utf8Step (b : Nat) (bs : List Nat) : Option (Char × List Nat) :=
  if b < 0x80 then some (Char.ofNat b, bs)
  else if 0xC2 ≤ b ∧ b ≤ 0xDF then
    match bs with
    | b1 :: bs' => if contByte b1 then some (Char.ofNat (cp2 b b1), bs') else none
    | [] => none
  else if 0xE0 ≤ b ∧ b ≤ 0xEF then
    match bs with
    | b1 :: b2 :: bs' =>
      if contByte b1 ∧ contByte b2 then
        if cp3 b b1 b2 < 0x800 ∨ (0xD800 ≤ cp3 b b1 b2 ∧ cp3 b b1 b2 ≤ 0xDFFF) then none
        else some (Char.ofNat (cp3 b b1 b2), bs')
      else none
    | _ => none
  else if 0xF0 ≤ b ∧ b ≤ 0xF4 then
    match bs with
    | b1 :: b2 :: b3 :: bs' =>
      if contByte b1 ∧ contByte b2 ∧ contByte b3 then
        if cp4 b b1 b2 b3 < 0x10000 ∨ 0x10FFFF < cp4 b b1 b2 b3 then none
        else some (Char.ofNat (cp4 b b1 b2 b3), bs')
      else none
    | _ => none
  else none

/-- Character-by-character strict UTF-8 decoding with explicit fuel;
each step consumes at least one byte, so fuel bounded below by the byte
count never runs out. -/
def utf8DecodeAux : Nat → List Nat → Option Str
  | _, [] => some []
  | 0, _ :: _ => none
  | fuel + 1, b :: bs =>
    match utf8Step b bs with
    | some (ch, rest) => (utf8DecodeAux fuel rest).map (fun s => ch :: s)
    | none => none

/-- Strict UTF-8 decoding of one received byte chunk, as Python's
`bytes.decode('utf-8')` at `HTTPConnectionHandler.py:115`.  `none` models
the raised `UnicodeDecodeError`; in particular a multibyte character
truncated at the end of the chunk raises. -/
def utf8Decode (bs : List Nat) : Option Str := utf8DecodeAux bs.length bs

theorem utf8Step_rest_len {b : Nat} {bs : List Nat} {ch : Char} {rest : List Nat}
    (h : utf8Step b bs = some (ch, rest)) : rest.length ≤ bs.length := by
  unfold utf8Step at h
  repeat' split at h
  all_goals
    first
    | exact Option.noConfusion h
    | (cases h
       try simp only [List.length_cons]
       omega)

theorem utf8Step_append {b : Nat} {bs c2 : List Nat} {ch : Char} {rest : List Nat}
    (h : utf8Step b bs = some (ch, rest)) :
    utf8Step b (bs ++ c2) = some (ch, rest ++ c2) := by
  unfold utf8Step at h ⊢
  split at h
  · next hb =>
    rw [if_pos hb]
    cases h
    rfl
  · next hb =>
    rw [if_neg hb]
    split at h
    · next hb2 =>
      rw [if_pos hb2]
      split at h
      any_goals exact Option.noConfusion h
      rename_i b1 bs'
      rw [List.cons_append]
      dsimp only
      split at h
      · next hc =>
        rw [if_pos hc]
        cases h
        rfl
      · exact Option.noConfusion h
    · next hb2 =>
      rw [if_neg hb2]
      split at h
      · next hb3 =>
        rw [if_pos hb3]
        split at h
        any_goals exact Option.noConfusion h
        rename_i b1 b2 bs'
        rw [List.cons_append, List.cons_append]
        dsimp only
        split at h
        · next hc =>
          rw [if_pos hc]
          split at h
          · exact Option.noConfusion h
          · next hcp =>
            rw [if_neg hcp]
            cases h
            rfl
        · exact Option.noConfusion h
      · next hb3 =>
        rw [if_neg hb3]
        split at h
        · next hb4 =>
          rw [if_pos hb4]
          split at h
          any_goals exact Option.noConfusion h
          rename_i b1 b2 b3 bs'
          rw [List.cons_append, List.cons_append, List.cons_append]
          dsimp only
          split at h
          · next hc =>
            rw [if_pos hc]
            split at h
            · exact Option.noConfusion h
            · next hcp =>
              rw [if_neg hcp]
              cases h
              rfl
          · exact Option.noConfusion h
        · exact Option.noConfusion h

theorem utf8DecodeAux_fuel : ∀ (n m : Nat) (bs : List Nat), bs.length ≤ n → bs.length ≤ m →
    utf8DecodeAux n bs = utf8DecodeAux m bs := by
  intro n
  induction n with
  | zero =>
    intro m bs hn hm
    cases bs with
    | nil => cases m <;> rfl
    | cons b t => simp at hn
  | succ k ih =>
    intro m bs hn hm
    cases bs with
    | nil => cases m <;> rfl
    | cons b t =>
      cases m with
      | zero => simp at hm
      | succ j =>
        simp only [utf8DecodeAux]
        cases hstep : utf8Step b t with
        | none => rfl
        | some p =>
          obtain ⟨ch, rest⟩ := p
          dsimp only
          have hr := utf8Step_rest_len hstep
          simp only [List.length_cons] at hn hm
          rw [ih j rest (by omega) (by omega)]

theorem utf8Decode_nil : utf8Decode [] = some [] := rfl

theorem utf8Decode_cons_eq (b : Nat) (bs : List Nat) :
    utf8Decode (b :: bs) =
      match utf8Step b bs with
      | some (ch, rest) => (utf8Decode rest).map (fun s => ch :: s)
      | none => none := by
  rw [utf8Decode, List.length_cons]
  simp only [utf8DecodeAux]
  cases hstep : utf8Step b bs with
  | none => rfl
  | some p =>
    obtain ⟨ch, rest⟩ := p
    dsimp only
    rw [utf8Decode]
    rw [utf8DecodeAux_fuel bs.length rest.length rest (utf8Step_rest_len hstep) (Nat.le_refl _)]

theorem utf8Decode_ne_nil {b : Nat} {bs : List Nat} {s : Str}
    (h : utf8Decode (b :: bs) = some s) : s ≠ [] := by
  rw [utf8Decode_cons_eq] at h
  intro hs
  subst hs
  cases hstep : utf8Step b bs with
  | none =>
    rw [hstep] at h
    exact Option.noConfusion h
  | some p =>
    obtain ⟨ch, rest⟩ := p
    rw [hstep] at h
    dsimp only at h
    obtain ⟨a, -, ha⟩ := Option.map_eq_some'.mp h
    exact List.noConfusion ha

theorem utf8Decode_append_len (n : Nat) : ∀ (c1 c2 : List Nat) (s1 s2 : Str),
    c1.length ≤ n → utf8Decode c1 = some s1 → utf8Decode c2 = some s2 →
    utf8Decode (c1 ++ c2) = some (s1 ++ s2) := by
  induction n with
  | zero =>
    intro c1 c2 s1 s2 hlen h1 h2
    cases c1 with
    | nil =>
      rw [utf8Decode_nil] at h1
      cases h1
      simpa using h2
    | cons b bs => simp at hlen
  | succ m ih =>
    intro c1 c2 s1 s2 hlen h1 h2
    cases c1 with
    | nil =>
      rw [utf8Decode_nil] at h1
      cases h1
      simpa using h2
    | cons b bs =>
      rw [utf8Decode_cons_eq] at h1
      rw [List.cons_append, utf8Decode_cons_eq]
      cases hstep : utf8Step b bs with
      | none =>
        rw [hstep] at h1
        exact Option.noConfusion h1
      | some p =>
        obtain ⟨ch, rest⟩ := p
        rw [hstep] at h1
        rw [utf8Step_append hstep]
        dsimp only at h1 ⊢
        cases hr : utf8Decode rest with
        | none =>
          rw [hr] at h1
          exact Option.noConfusion h1
        | some sr =>
          rw [hr] at h1
          simp only [Option.map_some', Option.some.injEq] at h1
          subst h1
          have hrl := utf8Step_rest_len hstep
          simp only [List.length_cons] at hlen
          rw [ih rest c2 sr s2 (by omega) hr h2]
          simp

theorem utf8Decode_append {c1 c2 : List Nat} {s1 s2 : Str}
    (h1 : utf8Decode c1 = some s1) (h2 : utf8Decode c2 = some s2) :
    utf8Decode (c1 ++ c2) = some (s1 ++ s2) :=
  utf8Decode_append_len c1.length c1 c2 s1 s2 (Nat.le_refl _) h1 h2

/-- What one blocking `recv` on the connection yields at the byte level:
a chunk of raw bytes (the empty chunk models the peer half-closing) or a
`socket.timeout`. -/
inductive ByteEv where
  | data (chunk : List Nat)
  | timeout
deriving DecidableEq

/-- Byte-level outcomes of `get_request`: a frame, `None` after the peer
closed, a raised `RecvTimeoutError`, or a raised `UnicodeDecodeError`
from the strict per-chunk decode (caught nowhere in the program). -/
inductive ByteFrameResult where
  | frame (f : Str)
  | closed
  | timedOut
  | decodeError
deriving DecidableEq

/-- `__detect_request_from_socket` at the byte level: each `recv` chunk
is strictly decoded (`data = self.connection.recv(...).decode('utf-8')`)
before the emptiness test; a decode failure raises out of the loop. -/
def get_request_bytes (buf : Str) (evs : List ByteEv) : ByteFrameResult × Str × List ByteEv :=
  match extractFrame buf with
  | some (f, r) => (.frame f, r, evs)
  | none =>
    match evs with
    | [] => (.closed, buf, [])
    | .data c :: es =>
      match utf8Decode c with
      | some s => if s = [] then (.closed, buf, es) else get_request_bytes (buf ++ s) es
      | none => (.decodeError, buf, es)
    | .timeout :: es => (.timedOut, buf, es)

theorem get_request_bytes_eq (buf : Str) (evs : List ByteEv) :
    get_request_bytes buf evs =
      match extractFrame buf with
      | some (f, r) => (.frame f, r, evs)
      | none =>
        match evs with
        | [] => (.closed, buf, [])
        | .data c :: es =>
          match utf8Decode c with
          | some s => if s = [] then (.closed, buf, es) else get_request_bytes (buf ++ s) es
          | none => (.decodeError, buf, es)
        | .timeout :: es => (.timedOut, buf, es) := by
  cases evs with
  | nil => rw [get_request_bytes.eq_1]
  | cons e es =>
    cases e with
    | data c => rw [get_request_bytes.eq_2]
    | timeout => rw [get_request_bytes.eq_3]

theorem get_request_bytes_frame_lex {buf : Str} {evs : List ByteEv} {f buf' : Str}
    {evs' : List ByteEv} (h : get_request_bytes buf evs = (.frame f, buf', evs')) :
    evs'.length < evs.length ∨ (evs' = evs ∧ buf'.length < buf.length) := by
  induction evs generalizing buf with
  | nil =>
    rw [get_request_bytes_eq] at h
    cases he : extractFrame buf with
    | none => rw [he] at h; simp at h
    | some p =>
      obtain ⟨ff, rr⟩ := p
      rw [he] at h
      simp only [Prod.mk.injEq, ByteFrameResult.frame.injEq] at h
      obtain ⟨-, h2, h3⟩ := h
      subst h2
      subst h3
      right
      exact ⟨rfl, extractFrame_some_len he⟩
  | cons e es ih =>
    rw [get_request_bytes_eq] at h
    cases he : extractFrame buf with
    | some p =>
      obtain ⟨ff, rr⟩ := p
      rw [he] at h
      simp only [Prod.mk.injEq, ByteFrameResult.frame.injEq] at h
      obtain ⟨-, h2, h3⟩ := h
      subst h2
      subst h3
      right
      exact ⟨rfl, extractFrame_some_len he⟩
    | none =>
      rw [he] at h
      cases e with
      | data c =>
        dsimp only at h
        cases hd : utf8Decode c with
        | none => rw [hd] at h; simp at h
        | some s =>
          rw [hd] at h
          dsimp only at h
          split at h
          · simp at h
          · rcases ih h with h1 | ⟨h2, h3⟩
            · left
              simp only [List.length_cons]
              omega
            · left
              rw [h2]
              simp only [List.length_cons]
              omega
      | timeout => simp at h

/-- The sequence of frames the byte-level framer yields over a session:
iterate until close, timeout, or an uncaught `UnicodeDecodeError`. -/
def runFramerBytes (buf : Str) (evs : List ByteEv) : List Str :=
  match h : get_request_bytes buf evs with
  | (.frame f, buf', evs') => f :: runFramerBytes buf' evs'
  | (.closed, _, _) => []
  | (.timedOut, _, _) => []
  | (.decodeError, _, _) => []
termination_by (evs.length, buf.length)
decreasing_by
  rcases get_request_bytes_frame_lex h with h1 | ⟨h2, h3⟩
  · exact Prod.Lex.left _ _ h1
  · rw [h2]
    exact Prod.Lex.right _ h3

theorem runFramerBytes_eq (buf : Str) (evs : List ByteEv) :
    runFramerBytes buf evs =
      match get_request_bytes buf evs with
      | (.frame f, buf', evs') => f :: runFramerBytes buf' evs'
      | (.closed, _, _) => []
      | (.timedOut, _, _) => []
      | (.decodeError, _, _) => [] := by
  rw [runFramerBytes]
  split
  · next f buf' evs' heq => rw [heq]
  · next b e heq => rw [heq]
  · next b e heq => rw [heq]
  · next b e heq => rw [heq]

theorem get_request_bytes_data (chunks : List (List Nat)) (buf : Str)
    (hne : ∀ c ∈ chunks, c ≠ []) (hdec : ∀ c ∈ chunks, (utf8Decode c).isSome = true) :
    (∃ k f r,
       extractFrame (buf ++ ((chunks.take k).map fun c => (utf8Decode c).getD []).flatten) =
           some (f, r) ∧
       get_request_bytes buf (chunks.map ByteEv.data) =
         (.frame f, r, (chunks.drop k).map ByteEv.data))
    ∨ (extractFrame (buf ++ (chunks.map fun c => (utf8Decode c).getD []).flatten) = none ∧
       get_request_bytes buf (chunks.map ByteEv.data) =
         (.closed, buf ++ (chunks.map fun c => (utf8Decode c).getD []).flatten, [])) := by
  induction chunks generalizing buf with
  | nil =>
    rw [get_request_bytes_eq]
    cases he : extractFrame buf with
    | some p =>
      left
      exact ⟨0, p.1, p.2, by simpa using he, by simp⟩
    | none =>
      right
      refine ⟨by simpa using he, by simp⟩
  | cons c cs ih =>
    rw [get_request_bytes_eq]
    cases he : extractFrame buf with
    | some p =>
      left
      exact ⟨0, p.1, p.2, by simpa using he, by simp⟩
    | none =>
      have hc : c ≠ [] := hne c (by simp)
      obtain ⟨s, hs⟩ := Option.isSome_iff_exists.mp (hdec c (by simp))
      have hsne : s ≠ [] := by
        cases c with
        | nil => exact absurd rfl hc
        | cons b bs => exact utf8Decode_ne_nil hs
      simp only [List.map_cons]
      rw [hs]
      dsimp only
      rw [if_neg hsne]
      rcases ih (buf ++ s)
          (fun d hd => hne d (by simp [hd]))
          (fun d hd => hdec d (by simp [hd])) with ⟨k, f, r, h1, h2⟩ | ⟨h1, h2⟩
      · left
        refine ⟨k + 1, f, r, ?_, ?_⟩
        · simpa [hs, List.append_assoc] using h1
        · rw [h2]
          simp
      · right
        refine ⟨by simpa [hs, List.append_assoc] using h1, ?_⟩
        rw [h2]
        simp [hs, List.append_assoc]

theorem runFramerBytes_framesOf (buf : Str) (evs : List ByteEv) :
    ∀ chunks : List (List Nat), evs = chunks.map ByteEv.data →
      (∀ c ∈ chunks, c ≠ []) → (∀ c ∈ chunks, (utf8Decode c).isSome = true) →
      runFramerBytes buf evs =
        framesOf (buf ++ (chunks.map fun c => (utf8Decode c).getD []).flatten) := by
  induction buf, evs using runFramerBytes.induct with
  | case1 buf evs f buf' evs' hget ih =>
    intro chunks hevs hne hdec
    subst hevs
    rcases get_request_bytes_data chunks buf hne hdec with ⟨k, f2, r2, h1, h2⟩ | ⟨h1, h2⟩
    · rw [hget] at h2
      simp only [Prod.mk.injEq, ByteFrameResult.frame.injEq] at h2
      obtain ⟨hf2, hr2, hevs'⟩ := h2
      subst hf2
      subst hr2
      have hsplit : buf ++ (chunks.map fun c => (utf8Decode c).getD []).flatten =
          (buf ++ ((chunks.take k).map fun c => (utf8Decode c).getD []).flatten) ++
            ((chunks.drop k).map fun c => (utf8Decode c).getD []).flatten := by
        rw [List.append_assoc, ← List.flatten_append, ← List.map_append,
          List.take_append_drop]
      have hext := extractFrame_append h1 (s := ((chunks.drop k).map fun c => (utf8Decode c).getD []).flatten)
      rw [runFramerBytes_eq, hget, hsplit, framesOf_eq, hext]
      have hrec := ih (chunks.drop k) hevs'
        (fun d hd => hne d (List.mem_of_mem_drop hd))
        (fun d hd => hdec d (List.mem_of_mem_drop hd))
      show f :: runFramerBytes buf' evs' =
        f :: framesOf (buf' ++ ((chunks.drop k).map fun c => (utf8Decode c).getD []).flatten)
      rw [hrec]
    · rw [hget] at h2
      simp at h2
  | case2 buf evs b e hget =>
    intro chunks hevs hne hdec
    subst hevs
    rcases get_request_bytes_data chunks buf hne hdec with ⟨k, f2, r2, h1, h2⟩ | ⟨h1, h2⟩
    · rw [hget] at h2
      simp at h2
    · rw [runFramerBytes_eq, hget, framesOf_eq, h1]
  | case3 buf evs b e hget =>
    intro chunks hevs hne hdec
    subst hevs
    rcases get_request_bytes_data chunks buf hne hdec with ⟨k, f2, r2, h1, h2⟩ | ⟨h1, h2⟩
    · rw [hget] at h2
      simp at h2
    · rw [hget] at h2
      simp at h2
  | case4 buf evs b e hget =>
    intro chunks hevs hne hdec
    subst hevs
    rcases get_request_bytes_data chunks buf hne hdec with ⟨k, f2, r2, h1, h2⟩ | ⟨h1, h2⟩
    · rw [hget] at h2
      simp at h2
    · rw [hget] at h2
      simp at h2

theorem utf8Decode_flatten (chunks : List (List Nat))
    (hdec : ∀ c ∈ chunks, (utf8Decode c).isSome = true) :
    utf8Decode chunks.flatten =
      some ((chunks.map fun c => (utf8Decode c).getD []).flatten) := by
  induction chunks with
  | nil => exact utf8Decode_nil
  | cons c cs ih =>
    obtain ⟨s, hs⟩ := Option.isSome_iff_exists.mp (hdec c (by simp))
    have h2 := ih (fun d hd => hdec d (by simp [hd]))
    rw [List.flatten_cons, utf8Decode_append hs h2, List.map_cons, List.flatten_cons, hs]
    simp

/-- C5 (amended): for every byte stream and every partition of it into
nonempty read chunks each of which is itself valid UTF-8 (the partition
does not split a multibyte character), the framer produces the identical
frame sequence as when the whole stream arrives in a single read. -/
theorem framer_chunking_invariance_bytes (chunks : List (List Nat))
    (hne : ∀ c ∈ chunks, c ≠ [])
    (hdec : ∀ c ∈ chunks, (utf8Decode c).isSome = true) :
    runFramerBytes [] (chunks.map ByteEv.data) =
      runFramerBytes [] [ByteEv.data chunks.flatten] := by
  rw [runFramerBytes_framesOf [] (chunks.map ByteEv.data) chunks rfl hne hdec]
  by_cases hflat : chunks.flatten = ([] : List Nat)
  · have hch : chunks = [] := by
      cases chunks with
      | nil => rfl
      | cons c cs =>
        rw [List.flatten_cons] at hflat
        have hcnil : c = [] := by
          cases c with
          | nil => rfl
          | cons b bs => simp at hflat
        exact absurd hcnil (hne c (by simp))
    subst hch
    rw [framesOf_eq, runFramerBytes_eq, get_request_bytes_eq]
    rfl
  · have hdf := utf8Decode_flatten chunks hdec
    rw [runFramerBytes_framesOf [] [ByteEv.data chunks.flatten] [chunks.flatten] rfl
        (by simpa using hflat)
        (by
          intro d hd
          simp only [List.mem_singleton] at hd
          subst hd
          rw [hdf]
          rfl)]
    simp [hdf]

theorem framer_chunking_invariance_bytes_witness :
    (∀ c ∈ ([[0x41, 13, 10], [13, 10, 0x42]] : List (List Nat)), c ≠ []) ∧
    (∀ c ∈ ([[0x41, 13, 10], [13, 10, 0x42]] : List (List Nat)),
      (utf8Decode c).isSome = true) ∧
    runFramerBytes [] (([[0x41, 13, 10], [13, 10, 0x42]] : List (List Nat)).map ByteEv.data) =
      runFramerBytes []
        [ByteEv.data ([[0x41, 13, 10], [13, 10, 0x42]] : List (List Nat)).flatten] :=
  ⟨by decide, by decide, framer_chunking_invariance_bytes _ (by decide) (by decide)⟩

/-- C5 counterexample: the six-byte stream `0xC3 0xA9 CR LF CR LF` (the
two-byte character U+00E9 followed by the frame terminator).  Arriving in
one read it decodes and yields the frame `[U+00E9]`; partitioned between
the two bytes of the character, the strict per-chunk decode of `0xC3`
raises `UnicodeDecodeError`, the session aborts, and no frame is ever
produced — the framer is not chunking-invariant over byte partitions. -/
theorem framer_chunking_bytes_counterexample :
    ([[0xC3], [0xA9, 13, 10, 13, 10]] : List (List Nat)).flatten =
      [0xC3, 0xA9, 13, 10, 13, 10] ∧
    (∀ c ∈ ([[0xC3], [0xA9, 13, 10, 13, 10]] : List (List Nat)), c ≠ []) ∧
    utf8Decode [0xC3] = none ∧
    get_request_bytes [] (([[0xC3], [0xA9, 13, 10, 13, 10]] : List (List Nat)).map ByteEv.data) =
      (.decodeError, [], [ByteEv.data [0xA9, 13, 10, 13, 10]]) ∧
    runFramerBytes [] (([[0xC3], [0xA9, 13, 10, 13, 10]] : List (List Nat)).map ByteEv.data) =
      [] ∧
    runFramerBytes [] [ByteEv.data [0xC3, 0xA9, 13, 10, 13, 10]] = [[Char.ofNat 0xE9]] := by
  refine ⟨by decide, by decide, by decide, by decide, ?_, ?_⟩
  · rw [runFramerBytes_eq]
    have h : get_request_bytes []
        (([[0xC3], [0xA9, 13, 10, 13, 10]] : List (List Nat)).map ByteEv.data) =
        (.decodeError, [], [ByteEv.data [0xA9, 13, 10, 13, 10]]) := by decide
    rw [h]
  · rw [runFramerBytes_eq]
    have h1 : get_request_bytes [] [ByteEv.data [0xC3, 0xA9, 13, 10, 13, 10]] =
        (.frame [Char.ofNat 0xE9], [], []) := by decide
    rw [h1]
    show [Char.ofNat 0xE9] :: runFramerBytes [] [] = [[Char.ofNat 0xE9]]
    rw [runFramerBytes_eq]
    have h2 : get_request_bytes ([] : Str) ([] : List ByteEv) = (.closed, [], []) := by decide
    rw [h2]
